import Mathlib

/-!
A shallow embedding of the response-parsing and citation-annotation code of
this repository.  The embedded functions are `get_output_text` and
`get_citations` (identical definitions in `file_search.py`,
`streamlit_file_search.py` and `streamlit_search.py`) and
`format_text_with_citations` (`streamlit_file_search.py`).

Python dynamic values are modelled by the inductive type `PyVal`; attribute
lookup, `dict.get`, subscripting, iteration and `==`-against-a-string are
modelled by total Lean functions returning `Except Unit` where the Python
operation can raise (`AttributeError`, `TypeError`, `KeyError`).  The
`try/except` wrappers of the two parsing functions are modelled by mapping
the `Except.error` outcome to the value the handler returns (`None`, resp.
the citation list accumulated so far).  `json.loads` (an external library
call) is modelled abstractly: a string payload carries the optional decoded
value, `none` standing for `json.JSONDecodeError`.

Text handled by the annotator is modelled as `List Char`; Python slice
expressions `s[a:b]`, `s[:a]`, `s[b:]` over nonnegative indices correspond
exactly to `(List.drop a).take (b - a)`, `List.take a` and `List.drop b`
(including the empty result for an inverted slice).  Citation indices are
modelled as natural numbers: the offsets delivered by the annotation payload
are nonnegative, and every claim checked below quantifies over or
instantiates nonnegative offsets only.
-/

/-- Python-like dynamic values traversed by the parsing functions.  `vobj`
models an attribute-bearing object (attribute name to value), `vdict` a
mapping, `vlist` a list; deeper strings are plain data. -/
inductive PyVal where
  | vnone
  | vbool (b : Bool)
  | vint (n : Int)
  | vstr (s : String)
  | vlist (xs : List PyVal)
  | vdict (fields : List (String × PyVal))
  | vobj (attrs : List (String × PyVal))

/-- First-match association-list lookup, the semantics of key and attribute
tables of `PyVal`. -/
def alookup (k : String) : List (String × PyVal) → Option PyVal
  | [] => none
  | kv :: r => if kv.1 = k then some kv.2 else alookup k r

/-- Python `hasattr(v, a)`: only attribute-bearing objects expose the
attribute names the parsing code asks for. -/
def pyHasAttr : PyVal → String → Bool
  | .vobj f, a => (alookup a f).isSome
  | _, _ => false

/-- Python attribute access `v.a`; raises `AttributeError` otherwise. -/
def pyAttr : PyVal → String → Except Unit PyVal
  | .vobj f, a =>
    match alookup a f with
    | some x => .ok x
    | none => .error ()
  | _, _ => .error ()

/-- Python `getattr(v, a, d)`: attribute access with a default, never
raising. -/
def pyAttrD : PyVal → String → PyVal → PyVal
  | .vobj f, a, d => (alookup a f).getD d
  | _, _, d => d

/-- Python `v.get(k)` for a mapping (default `None`); raises
`AttributeError` on anything that is not a mapping. -/
def pyGet : PyVal → String → Except Unit PyVal
  | .vdict f, k => .ok ((alookup k f).getD .vnone)
  | _, _ => .error ()

/-- Python `v.get(k, d)` as a total function, used only where a preceding
`v.get` has already established that `v` is a mapping. -/
def dGetD : PyVal → String → PyVal → PyVal
  | .vdict f, k, d => (alookup k f).getD d
  | _, _, d => d

/-- Python `k in v` for a mapping. -/
def dictHasKey : PyVal → String → Bool
  | .vdict f, k => (alookup k f).isSome
  | _, _ => false

/-- Python subscript `v[k]` for a mapping; raises otherwise. -/
def pySub : PyVal → String → Except Unit PyVal
  | .vdict f, k =>
    match alookup k f with
    | some x => .ok x
    | none => .error ()
  | _, _ => .error ()

/-- Python iteration `for x in v`: lists yield their elements, strings their
one-character substrings, mappings their keys; other values raise
`TypeError`. -/
def pyIter : PyVal → Except Unit (List PyVal)
  | .vlist xs => .ok xs
  | .vstr s => .ok (s.data.map (fun c => .vstr ⟨[c]⟩))
  | .vdict f => .ok (f.map (fun kv => .vstr kv.1))
  | _ => .error ()

/-- Python `v == lit` for a string literal `lit`: true only for an equal
string, false for every other value (no exception). -/
def pyEqStr : PyVal → String → Bool
  | .vstr s, t => s == t
  | _, _ => false

/-- Inner loop of `get_output_text`, attribute path: scan `item.content` for
the first content item with `type == "output_text"` and return its `text`
attribute.  `Except.error` models a raised exception, `ok none` a completed
scan without a match, `ok (some x)` the Python `return x`. -/
def scanContentAttr : List PyVal → Except Unit (Option PyVal)
  | [] => .ok none
  | ci :: rest =>
    match pyAttr ci "type" with
    | .error _ => .error ()
    | .ok ty =>
      if pyEqStr ty "output_text" then
        match pyAttr ci "text" with
        | .error _ => .error ()
        | .ok tx => .ok (some tx)
      else scanContentAttr rest

/-- Outer loop of `get_output_text`, attribute path: scan output items for a
`message` exposing `content`. -/
def scanMsgAttr : List PyVal → Except Unit (Option PyVal)
  | [] => .ok none
  | item :: rest =>
    match pyAttr item "type" with
    | .error _ => .error ()
    | .ok ty =>
      if pyEqStr ty "message" && pyHasAttr item "content" then
        match pyAttr item "content" with
        | .error _ => .error ()
        | .ok c =>
          match pyIter c with
          | .error _ => .error ()
          | .ok cs =>
            match scanContentAttr cs with
            | .error _ => .error ()
            | .ok (some r) => .ok (some r)
            | .ok none => scanMsgAttr rest
      else scanMsgAttr rest

/-- Inner loop of `get_output_text`, mapping path (`content_item.get`). -/
def scanContentDict : List PyVal → Except Unit (Option PyVal)
  | [] => .ok none
  | ci :: rest =>
    match pyGet ci "type" with
    | .error _ => .error ()
    | .ok ty =>
      if pyEqStr ty "output_text" then
        match pyGet ci "text" with
        | .error _ => .error ()
        | .ok tx => .ok (some tx)
      else scanContentDict rest

/-- Outer loop of `get_output_text`, mapping path. -/
def scanMsgDict : List PyVal → Except Unit (Option PyVal)
  | [] => .ok none
  | item :: rest =>
    match pyGet item "type" with
    | .error _ => .error ()
    | .ok ty =>
      if pyEqStr ty "message" && dictHasKey item "content" then
        match pySub item "content" with
        | .error _ => .error ()
        | .ok c =>
          match pyIter c with
          | .error _ => .error ()
          | .ok cs =>
            match scanContentDict cs with
            | .error _ => .error ()
            | .ok (some r) => .ok (some r)
            | .ok none => scanMsgDict rest
      else scanMsgDict rest

/-- Body of `get_output_text` after normalization: try the attribute path
when the value has an `output` attribute, then the bare-list path; the
surrounding `try/except` turns any raised exception into `None`.  Python's
`None` result (explicit or from a missing `text` key) is `PyVal.vnone`. -/
def get_output_text_val (v : PyVal) : PyVal :=
  let attrStep : Except Unit (Option PyVal) :=
    if pyHasAttr v "output" then
      match pyAttr v "output" with
      | .error _ => .error ()
      | .ok out =>
        match pyIter out with
        | .error _ => .error ()
        | .ok items => scanMsgAttr items
    else .ok none
  match attrStep with
  | .error _ => .vnone
  | .ok (some r) => r
  | .ok none =>
    match v with
    | .vlist items =>
      match scanMsgDict items with
      | .error _ => .vnone
      | .ok (some r) => r
      | .ok none => .vnone
    | _ => .vnone

/-- A response payload as received by `get_output_text` / `get_citations`:
either a string together with its abstract `json.loads` result (`none`
modelling `json.JSONDecodeError`), or a non-string Python value, which the
source normalizes to itself in both its `dict` branch and its object
branch. -/
inductive Payload where
  | ofStr (s : String) (decoded : Option PyVal)
  | ofVal (v : PyVal)

/-- `get_output_text` of `file_search.py` (lines 174-217), identical in
`streamlit_file_search.py` and `streamlit_search.py`. -/
def get_output_text : Payload → PyVal
  | .ofStr _ none => .vnone
  | .ofStr _ (some v) => get_output_text_val v
  | .ofVal v => get_output_text_val v

/-- A citation dictionary as built by `get_citations`: the literal key-value
pairs of the Python `dict` literal. -/
abbrev CitD := List (String × PyVal)

/-- The citation dictionary built on the attribute path of `get_citations`
(`file_search.py` lines 253-262) for the annotation at 0-based position
`idx`; `ty` is the already-read `annotation.type`. -/
def mkCitationAttr (idx : Nat) (ann : PyVal) (ty : PyVal) : CitD :=
  [("number", .vint (idx + 1)),
   ("type", ty),
   ("title", pyAttrD ann "title" (.vstr "No title")),
   ("url", pyAttrD ann "url" .vnone),
   ("file_id", pyAttrD ann "file_id" .vnone),
   ("quote", pyAttrD ann "quote" .vnone),
   ("start_index", pyAttrD ann "start_index" .vnone),
   ("end_index", pyAttrD ann "end_index" .vnone)]

/-- The citation dictionary built on the mapping path of `get_citations`
(`file_search.py` lines 273-282); all `annotation.get` calls are safe here
because the guarding `annotation.get('type')` already succeeded. -/
def mkCitationDict (idx : Nat) (ann : PyVal) (ty : PyVal) : CitD :=
  [("number", .vint (idx + 1)),
   ("type", ty),
   ("title", dGetD ann "title" (.vstr "No title")),
   ("url", dGetD ann "url" .vnone),
   ("file_id", dGetD ann "file_id" .vnone),
   ("quote", dGetD ann "quote" .vnone),
   ("start_index", dGetD ann "start_index" .vnone),
   ("end_index", dGetD ann "end_index" .vnone)]

/-- Annotation loop of `get_citations`, attribute path: `enumerate` over all
annotations of one content item, appending a citation for each annotation of
type `url_citation` or `file_citation`.  An `Except.error` carries the
citations accumulated up to the raised exception, which is what the function
would return through its handler. -/
def annLoopAttr (acc : List CitD) (idx : Nat) : List PyVal → Except (List CitD) (List CitD)
  | [] => .ok acc
  | ann :: rest =>
    match pyAttr ann "type" with
    | .error _ => .error acc
    | .ok ty =>
      if pyEqStr ty "url_citation" || pyEqStr ty "file_citation" then
        annLoopAttr (acc ++ [mkCitationAttr idx ann ty]) (idx + 1) rest
      else annLoopAttr acc (idx + 1) rest

/-- Content loop of `get_citations`, attribute path: every content item with
`type == "output_text"` exposing `annotations` contributes (no early stop). -/
def contentLoopAttr (acc : List CitD) : List PyVal → Except (List CitD) (List CitD)
  | [] => .ok acc
  | ci :: rest =>
    match pyAttr ci "type" with
    | .error _ => .error acc
    | .ok ty =>
      if pyEqStr ty "output_text" && pyHasAttr ci "annotations" then
        match pyAttr ci "annotations" with
        | .error _ => .error acc
        | .ok anns =>
          match pyIter anns with
          | .error _ => .error acc
          | .ok annList =>
            match annLoopAttr acc 0 annList with
            | .error acc2 => .error acc2
            | .ok acc2 => contentLoopAttr acc2 rest
      else contentLoopAttr acc rest

/-- Item loop of `get_citations`, attribute path: every `message` item with
`content` contributes. -/
def itemLoopAttr (acc : List CitD) : List PyVal → Except (List CitD) (List CitD)
  | [] => .ok acc
  | item :: rest =>
    match pyAttr item "type" with
    | .error _ => .error acc
    | .ok ty =>
      if pyEqStr ty "message" && pyHasAttr item "content" then
        match pyAttr item "content" with
        | .error _ => .error acc
        | .ok c =>
          match pyIter c with
          | .error _ => .error acc
          | .ok cs =>
            match contentLoopAttr acc cs with
            | .error acc2 => .error acc2
            | .ok acc2 => itemLoopAttr acc2 rest
      else itemLoopAttr acc rest

/-- Annotation loop of `get_citations`, mapping path. -/
def annLoopDict (acc : List CitD) (idx : Nat) : List PyVal → Except (List CitD) (List CitD)
  | [] => .ok acc
  | ann :: rest =>
    match pyGet ann "type" with
    | .error _ => .error acc
    | .ok ty =>
      if pyEqStr ty "url_citation" || pyEqStr ty "file_citation" then
        annLoopDict (acc ++ [mkCitationDict idx ann ty]) (idx + 1) rest
      else annLoopDict acc (idx + 1) rest

/-- Content loop of `get_citations`, mapping path (guard:
`content_item.get('type') == 'output_text' and 'annotations' in
content_item`). -/
def contentLoopDict (acc : List CitD) : List PyVal → Except (List CitD) (List CitD)
  | [] => .ok acc
  | ci :: rest =>
    match pyGet ci "type" with
    | .error _ => .error acc
    | .ok ty =>
      if pyEqStr ty "output_text" && dictHasKey ci "annotations" then
        match pySub ci "annotations" with
        | .error _ => .error acc
        | .ok anns =>
          match pyIter anns with
          | .error _ => .error acc
          | .ok annList =>
            match annLoopDict acc 0 annList with
            | .error acc2 => .error acc2
            | .ok acc2 => contentLoopDict acc2 rest
      else contentLoopDict acc rest

/-- Item loop of `get_citations`, mapping path. -/
def itemLoopDict (acc : List CitD) : List PyVal → Except (List CitD) (List CitD)
  | [] => .ok acc
  | item :: rest =>
    match pyGet item "type" with
    | .error _ => .error acc
    | .ok ty =>
      if pyEqStr ty "message" && dictHasKey item "content" then
        match pySub item "content" with
        | .error _ => .error acc
        | .ok c =>
          match pyIter c with
          | .error _ => .error acc
          | .ok cs =>
            match contentLoopDict acc cs with
            | .error acc2 => .error acc2
            | .ok acc2 => itemLoopDict acc2 rest
      else itemLoopDict acc rest

/-- Body of `get_citations` after normalization: run the attribute block
when the value has an `output` attribute, then the bare-list block; a raised
exception makes the function return the citations accumulated so far
(`except ...: return citations`). -/
def get_citations_val (v : PyVal) : List CitD :=
  let attrStep : Except (List CitD) (List CitD) :=
    if pyHasAttr v "output" then
      match pyAttr v "output" with
      | .error _ => .error []
      | .ok out =>
        match pyIter out with
        | .error _ => .error []
        | .ok items => itemLoopAttr [] items
    else .ok []
  match attrStep with
  | .error acc => acc
  | .ok acc =>
    match v with
    | .vlist items =>
      match itemLoopDict acc items with
      | .error acc2 => acc2
      | .ok acc2 => acc2
    | _ => acc

/-- `get_citations` of `file_search.py` (lines 220-289), identical in
`streamlit_file_search.py` and `streamlit_search.py`. -/
def get_citations : Payload → List CitD
  | .ofStr _ none => []
  | .ofStr _ (some v) => get_citations_val v
  | .ofVal v => get_citations_val v

/-- Character list of a string literal; the annotator works on `List Char`. -/
def chars (s : String) : List Char := s.data

/-- A citation as consumed by `format_text_with_citations`: the citation
dictionary of the data model with well-typed fields.  Offsets are natural
numbers (the annotation payload delivers nonnegative offsets); an absent
optional field is `none`. -/
structure Citation where
  number : Nat := 0
  type : String
  title : List Char := []
  url : Option (List Char) := none
  file_id : Option (List Char) := none
  quote : Option (List Char) := none
  start_index : Option Nat := none
  end_index : Option Nat := none
deriving DecidableEq

/-- Python truthiness of `citation.get("url")` / `citation.get("file_id")`:
`None` and the empty string are falsy. -/
def optTruthy : Option (List Char) → Bool
  | some u => !u.isEmpty
  | none => false

/-- The link markup of `streamlit_file_search.py` line 712 for a url
citation. -/
def htmlLinkA (u cited : List Char) : List Char :=
  chars "<a href=\"" ++ u ++ chars "\" target=\"_blank\" class=\"citation-link\">" ++
    cited ++ chars "</a>"

/-- The span markup of `streamlit_file_search.py` line 715 for a file
citation. -/
def htmlSpanWrap (cited : List Char) : List Char :=
  chars "<span class=\"citation-link\">" ++ cited ++ chars "</span>"

/-- The `if / elif / else: continue` rendering choice of
`streamlit_file_search.py` lines 711-717: `none` is the `continue` that
leaves the buffer unchanged. -/
def linkFor (c : Citation) (cited : List Char) : Option (List Char) :=
  if c.type = "url_citation" ∧ optTruthy c.url then
    some (htmlLinkA (c.url.getD []) cited)
  else if c.type = "file_citation" ∧ optTruthy c.file_id then
    some (htmlSpanWrap cited)
  else none

/-- One iteration of the splicing loop of `streamlit_file_search.py` lines
706-721: validate `start < len(result) and end <= len(result)` against the
current buffer, cut `result[start:end]`, and splice
`result[:start] + link + result[end:]`. -/
def applyCitation (result : List Char) (c : Citation) : List Char :=
  match c.start_index, c.end_index with
  | some s, some e =>
    if s < result.length ∧ e ≤ result.length then
      match linkFor c ((result.drop s).take (e - s)) with
      | some link => result.take s ++ link ++ result.drop e
      | none => result
    else result
  | _, _ => result

/-- Start offset used as the sort key (`x["start_index"]`); only applied to
citations that passed the `is not None` filter. -/
def startN (c : Citation) : Nat := c.start_index.getD 0

/-- End offset of a citation with present indices. -/
def endN (c : Citation) : Nat := c.end_index.getD 0

/-- Python `sorted(..., key=lambda x: x["start_index"], reverse=True)`: a
stable descending sort, modelled by insertion sort with the reflexive
descending relation. -/
def sortDescByStart (l : List Citation) : List Citation :=
  List.insertionSort (fun a b => startN b ≤ startN a) l

/-- `format_text_with_citations` of `streamlit_file_search.py` (lines
683-723): return the text unchanged for an empty citation list, otherwise
filter to citations with both offsets present, sort by start descending, and
fold the splicing step over the text. -/
def format_text_with_citations (text : List Char) (citations : List Citation) : List Char :=
  if citations.isEmpty then text
  else
    (sortDescByStart
        (citations.filter (fun c => c.start_index.isSome && c.end_index.isSome))).foldl
      applyCitation text

/-- Modelled from the spec (sections 4.2 and 9, design note on rebuilding
left to right): the reference result of annotating `t` from position `pos`
with an ascending, non-overlapping citation list — copy the text up to each
span, wrap the span's substring, and continue after the span.  Used to state
what a correct splice produces; compared against
`format_text_with_citations`. -/
def segmentsFrom (t : List Char) (pos : Nat) : List Citation → List Char
  | [] => t.drop pos
  | c :: cs =>
    (t.drop pos).take (startN c - pos) ++
      ((linkFor c ((t.drop (startN c)).take (endN c - startN c))).getD
        ((t.drop (startN c)).take (endN c - startN c))) ++
      segmentsFrom t (endN c) cs

/-- Modelled from the spec: the filtered citations in ascending start
order. -/
def specSortAsc (l : List Citation) : List Citation :=
  List.insertionSort (fun a b => startN a ≤ startN b) l

/-- Both offsets present and `0 <= start < end <= length t` (the spec's
validity condition for a span over the original text). -/
def ValidSpan (t : List Char) (c : Citation) : Prop :=
  ∃ s e, c.start_index = some s ∧ c.end_index = some e ∧ s < e ∧ e ≤ t.length

/-- The citation carries the field its type's rendering needs (truthy `url`
for a url citation, truthy `file_id` for a file citation). -/
def Renderable (c : Citation) : Prop :=
  (c.type = "url_citation" ∧ ∃ u, c.url = some u ∧ u ≠ []) ∨
  (c.type = "file_citation" ∧ ∃ f, c.file_id = some f ∧ f ≠ [])

/-- Two citations with disjoint (non-overlapping) spans. -/
def SpanDisj (a b : Citation) : Prop := endN a ≤ startN b ∨ endN b ≤ startN a

/-- The citation list an exception-free run returns (`ok`), or the list the
`except` handler returns after a raised exception (`error`): the observable
result either way. -/
def resCits : Except (List CitD) (List CitD) → List CitD
  | .ok l => l
  | .error l => l

/-- Whether a mapping-shaped annotation passes the keep filter
`annotation.get('type') in ['url_citation', 'file_citation']`. -/
def keepAnn (a : PyVal) : Bool :=
  pyEqStr (dGetD a "type" .vnone) "url_citation" ||
    pyEqStr (dGetD a "type" .vnone) "file_citation"

/-- Modelled from the spec (section 4.1): the citation numbers are the
1-based positions, in the original enumeration, of the annotations that pass
the keep filter; skipped annotations consume a position. -/
def specKeptNumbers (idx : Nat) : List PyVal → List Int
  | [] => []
  | a :: r =>
    if keepAnn a then (idx + 1 : Int) :: specKeptNumbers (idx + 1) r
    else specKeptNumbers (idx + 1) r

/-- The `number` field of a produced citation dictionary. -/
def citNumber (c : CitD) : Int :=
  match alookup "number" c with
  | some (.vint n) => n
  | _ => 0

/-- A bare-list payload with one message carrying one annotated
`output_text` content item. -/
def oneMsgPayload (anns : List PyVal) : PyVal :=
  .vlist [.vdict [("type", .vstr "message"),
                  ("content", .vlist [.vdict [("type", .vstr "output_text"),
                                              ("text", .vstr "t"),
                                              ("annotations", .vlist anns)]])]]

/-- A well-formed url-citation annotation. -/
def annUrl (u : String) : PyVal :=
  .vdict [("type", .vstr "url_citation"), ("url", .vstr u), ("title", .vstr "T")]

/-- A well-formed file-citation annotation. -/
def annFile : PyVal :=
  .vdict [("type", .vstr "file_citation"), ("file_id", .vstr "file-1")]

/-- An annotation of a type that is not a citation. -/
def annOther : PyVal := .vdict [("type", .vstr "reasoning_note")]

/-- A bare-list payload with two message items, each carrying one annotated
`output_text` content item. -/
def twoMsgPayload : PyVal :=
  .vlist [.vdict [("type", .vstr "message"),
                  ("content", .vlist [.vdict [("type", .vstr "output_text"),
                                              ("text", .vstr "a"),
                                              ("annotations", .vlist [annUrl "https://a.example"])]])],
          .vdict [("type", .vstr "message"),
                  ("content", .vlist [.vdict [("type", .vstr "output_text"),
                                              ("text", .vstr "b"),
                                              ("annotations", .vlist [annUrl "https://b.example"])]])]]

/-- The message item of the running single-answer example. -/
def exMsgItem : PyVal :=
  .vdict [("type", .vstr "message"),
          ("content", .vlist [.vdict [("type", .vstr "output_text"),
                                      ("text", .vstr "The answer.")]])]

/-- The same logical message as a mapping with an `output` key. -/
def exMappingPayload : PyVal := .vdict [("output", .vlist [exMsgItem])]

/-- The JSON text of the mapping encoding of the example message. -/
def exJsonText : String :=
  "\x7b\"output\": [\x7b\"type\": \"message\", \"content\": [\x7b\"type\": \"output_text\", \"text\": \"The answer.\"\x7d]\x7d]\x7d"

/-- An anomalous payload: the `output_text` content item has annotations but
no `text` field (a missing non-optional field). -/
def exMissingText : PyVal :=
  .vlist [.vdict [("type", .vstr "message"),
                  ("content", .vlist [.vdict [("type", .vstr "output_text"),
                                              ("annotations", .vlist [.vdict [("type", .vstr "url_citation"),
                                                                              ("url", .vstr "https://e.example")]])]])]]

mutual

/-- Whether the string `"output_text"` occurs anywhere inside a value (as a
string leaf or a mapping/object key).  A payload without it has no
`output_text` content item under any traversal path of the parsers. -/
def hasOTS : PyVal → Bool
  | .vnone => false
  | .vbool _ => false
  | .vint _ => false
  | .vstr s => s == "output_text"
  | .vlist xs => hasOTSList xs
  | .vdict f => hasOTSFields f
  | .vobj f => hasOTSFields f

/-- `hasOTS` over the elements of a list. -/
def hasOTSList : List PyVal → Bool
  | [] => false
  | x :: xs => hasOTS x || hasOTSList xs

/-- `hasOTS` over the keys and values of a field table. -/
def hasOTSFields : List (String × PyVal) → Bool
  | [] => false
  | kv :: f => (kv.1 == "output_text") || hasOTS kv.2 || hasOTSFields f

end

/-- Whether the string `"output_text"` occurs anywhere in the payload (for a
string payload, in its decoded value; a non-decodable string has no decoded
value at all). -/
def hasOTSPayload : Payload → Bool
  | .ofStr _ none => false
  | .ofStr _ (some v) => hasOTS v
  | .ofVal v => hasOTS v

/-- C9: annotating with an empty citation list returns the text unchanged,
for `"The sky is blue."` and for every other string. -/
theorem c9_empty_citations_identity :
    (∀ t : List Char, format_text_with_citations t [] = t) ∧
    format_text_with_citations (chars "The sky is blue.") [] = chars "The sky is blue." :=
  ⟨fun _ => rfl, rfl⟩

/-- C2 counterexample: a single inverted citation (`start_index = 10`,
`end_index = 5`) is not skipped — the output differs from the input text,
because the splicing loop checks only `start < len(result)` and
`end <= len(result)`, never `start < end`. -/
theorem c2_inverted_citation_counterexample :
    format_text_with_citations (chars "The sky is blue.")
        [{ type := "url_citation", url := some (chars "https://x.test"),
           start_index := some 10, end_index := some 5 }] ≠
      chars "The sky is blue." := by
  decide

/-- C2 amended: the splicing loop validates only `start_index <
length(buffer)` and `end_index <= length(buffer)`, with no inversion check.
A single citation whose `end_index` exceeds the text length is skipped and
the output equals the input, but the inverted citation `(10, 5)` is applied,
wrapping the empty slice and duplicating the characters between offsets 5
and 10. -/
theorem c2_amended_validation :
    (∀ (t : List Char) (c : Citation) (s e : Nat),
        c.start_index = some s → c.end_index = some e → t.length < e →
        format_text_with_citations t [c] = t) ∧
    format_text_with_citations (chars "The sky is blue.")
        [{ type := "url_citation", url := some (chars "https://x.test"),
           start_index := some 10, end_index := some 5 }] =
      (chars "The sky is blue.").take 10 ++ htmlLinkA (chars "https://x.test") [] ++
        (chars "The sky is blue.").drop 5 := by
  constructor
  · intro t c s e hs he hlen
    have hcond : ¬(s < t.length ∧ e ≤ t.length) := by omega
    simp [format_text_with_citations, sortDescByStart, applyCitation, hs, he, hcond]
  · rfl

/-- C2 amended, witness: a citation reaching past the end of
`"The sky is blue."` (length 16) leaves the text unchanged. -/
theorem c2_amended_validation_witness :
    format_text_with_citations (chars "The sky is blue.")
        [{ type := "url_citation", url := some (chars "https://x.test"),
           start_index := some 2, end_index := some 100 }] =
      chars "The sky is blue." :=
  c2_amended_validation.1 _ _ 2 100 rfl rfl (by decide)

/-- C7: with a valid in-range span, a url citation without a `url` or a file
citation without a `file_id` is skipped by the rendering step and the text
comes back unmodified. -/
theorem c7_missing_render_field_skipped (t : List Char) (c : Citation) (s e : Nat)
    (hs : c.start_index = some s) (he : c.end_index = some e)
    (hse : s < e) (het : e ≤ t.length)
    (hmiss : (c.type = "url_citation" ∧ c.url = none) ∨
      (c.type = "file_citation" ∧ c.file_id = none)) :
    format_text_with_citations t [c] = t := by
  have hlink : ∀ cited, linkFor c cited = none := by
    intro cited
    rcases hmiss with ⟨hty, hu⟩ | ⟨hty, hf⟩
    · simp [linkFor, hty, hu, optTruthy]
    · simp [linkFor, hty, hf, optTruthy]
  simp [format_text_with_citations, sortDescByStart, applyCitation, hs, he, hlink]

/-- C7 witness: a url citation with span `[0, 3)` but no url leaves
`"The sky is blue."` untouched. -/
theorem c7_missing_render_field_skipped_witness :
    format_text_with_citations (chars "The sky is blue.")
        [{ type := "url_citation", start_index := some 0, end_index := some 3 }] =
      chars "The sky is blue." :=
  c7_missing_render_field_skipped _ _ 0 3 rfl rfl (by omega) (by decide)
    (Or.inl ⟨rfl, rfl⟩)

/-- C10: offsets are validated against the current, already-spliced buffer.
The citation with `end_index = 20` on the 11-character text
`"hello world"` is skipped when it is alone, but is applied once the
citation starting at 6 has been spliced first and grown the buffer, so the
two-citation output differs from the one-citation output. -/
theorem c10_buffer_relative_validation :
    (chars "hello world").length < 20 ∧
    format_text_with_citations (chars "hello world")
        [{ type := "url_citation", url := some (chars "https://x.y"),
           start_index := some 0, end_index := some 20 }] =
      chars "hello world" ∧
    format_text_with_citations (chars "hello world")
        [{ type := "url_citation", url := some (chars "https://x.y"),
           start_index := some 0, end_index := some 20 },
         { type := "url_citation", url := some (chars "https://a.b"),
           start_index := some 6, end_index := some 11 }] ≠
      format_text_with_citations (chars "hello world")
        [{ type := "url_citation", url := some (chars "https://a.b"),
           start_index := some 6, end_index := some 11 }] := by
  refine ⟨by decide, by decide, by decide⟩

/-- C1: the bare-list encoding of the example message yields its answer
string, but the mapping encoding (and its JSON-string form) yields `None`:
`hasattr(response_data, 'output')` is false for a Python `dict`, so the
mapping branch of `get_output_text` never finds the text. -/
theorem c1_payload_shape_divergence :
    get_output_text (.ofVal (.vlist [exMsgItem])) = .vstr "The answer." ∧
    get_output_text (.ofVal exMappingPayload) = .vnone ∧
    get_output_text (.ofStr exJsonText (some exMappingPayload)) = .vnone ∧
    PyVal.vnone ≠ PyVal.vstr "The answer." :=
  ⟨rfl, rfl, rfl, fun h => PyVal.noConfusion h⟩

/-- C8: in the citation dictionary built for a kept annotation, an absent
`title` becomes the literal `"No title"` and each absent field among `url`,
`file_id`, `quote`, `start_index`, `end_index` becomes `None`, on the
mapping path and on the attribute path alike. -/
theorem c8_absent_fields_defaults (idx : Nat) (ty : PyVal) (f : List (String × PyVal)) :
    (alookup "title" f = none →
      alookup "title" (mkCitationDict idx (.vdict f) ty) = some (.vstr "No title")) ∧
    (alookup "url" f = none →
      alookup "url" (mkCitationDict idx (.vdict f) ty) = some .vnone) ∧
    (alookup "file_id" f = none →
      alookup "file_id" (mkCitationDict idx (.vdict f) ty) = some .vnone) ∧
    (alookup "quote" f = none →
      alookup "quote" (mkCitationDict idx (.vdict f) ty) = some .vnone) ∧
    (alookup "start_index" f = none →
      alookup "start_index" (mkCitationDict idx (.vdict f) ty) = some .vnone) ∧
    (alookup "end_index" f = none →
      alookup "end_index" (mkCitationDict idx (.vdict f) ty) = some .vnone) ∧
    (alookup "title" f = none →
      alookup "title" (mkCitationAttr idx (.vobj f) ty) = some (.vstr "No title")) ∧
    (alookup "url" f = none →
      alookup "url" (mkCitationAttr idx (.vobj f) ty) = some .vnone) ∧
    (alookup "file_id" f = none →
      alookup "file_id" (mkCitationAttr idx (.vobj f) ty) = some .vnone) ∧
    (alookup "quote" f = none →
      alookup "quote" (mkCitationAttr idx (.vobj f) ty) = some .vnone) ∧
    (alookup "start_index" f = none →
      alookup "start_index" (mkCitationAttr idx (.vobj f) ty) = some .vnone) ∧
    (alookup "end_index" f = none →
      alookup "end_index" (mkCitationAttr idx (.vobj f) ty) = some .vnone) := by
  refine ⟨?_, ?_, ?_, ?_, ?_, ?_, ?_, ?_, ?_, ?_, ?_, ?_⟩ <;>
    · intro h
      simp [mkCitationDict, mkCitationAttr, dGetD, pyAttrD, alookup, h]

/-- C8 witness: the defaults at a concrete annotation with no optional
fields present. -/
theorem c8_absent_fields_defaults_witness :
    alookup "title" (mkCitationDict 0 (.vdict []) (.vstr "url_citation")) =
      some (.vstr "No title") ∧
    alookup "url" (mkCitationDict 0 (.vdict []) (.vstr "url_citation")) = some .vnone ∧
    alookup "start_index" (mkCitationAttr 0 (.vobj []) (.vstr "url_citation")) = some .vnone := by
  obtain ⟨h1, h2, h3, h4, h5, h6, h7, h8, h9, h10, h11, h12⟩ :=
    c8_absent_fields_defaults 0 (.vstr "url_citation") []
  exact ⟨h1 rfl, h2 rfl, h11 rfl⟩

/-- The `number` field of a mapping-path citation dictionary is one more
than the 0-based enumeration index of its source annotation. -/
theorem citNumber_mkCitationDict (idx : Nat) (ann ty : PyVal) :
    citNumber (mkCitationDict idx ann ty) = (idx : Int) + 1 := rfl

/-- On the single-message payload, `get_citations` is exactly the
annotation loop run from index 0 on the annotation list (the observable
result whether or not the loop raises). -/
theorem get_citations_oneMsgPayload (anns : List PyVal) :
    get_citations (.ofVal (oneMsgPayload anns)) = resCits (annLoopDict [] 0 anns) := by
  show get_citations_val (oneMsgPayload anns) = resCits (annLoopDict [] 0 anns)
  cases h : annLoopDict [] 0 anns with
  | ok l =>
    simp [get_citations_val, oneMsgPayload, pyHasAttr, itemLoopDict, contentLoopDict,
      pyGet, pySub, dictHasKey, alookup, pyEqStr, pyIter, h, resCits]
  | error l =>
    simp [get_citations_val, oneMsgPayload, pyHasAttr, itemLoopDict, contentLoopDict,
      pyGet, pySub, dictHasKey, alookup, pyEqStr, pyIter, h, resCits]

/-- The mapping-path annotation loop appends citations whose numbers are
strictly increasing and all exceed the starting enumeration index. -/
theorem annLoopDict_numbers (anns : List PyVal) : ∀ (acc : List CitD) (idx : Nat),
    ∃ new, resCits (annLoopDict acc idx anns) = acc ++ new ∧
      (new.map citNumber).Pairwise (· < ·) ∧
      ∀ n ∈ new.map citNumber, (idx : Int) < n := by
  induction anns with
  | nil =>
    intro acc idx
    exact ⟨[], by simp [annLoopDict, resCits], by simp, by simp⟩
  | cons a r ih =>
    intro acc idx
    cases hg : pyGet a "type" with
    | error err =>
      exact ⟨[], by simp [annLoopDict, hg, resCits], by simp, by simp⟩
    | ok ty =>
      by_cases hk : (pyEqStr ty "url_citation" || pyEqStr ty "file_citation") = true
      · obtain ⟨new', h1, h2, h3⟩ := ih (acc ++ [mkCitationDict idx a ty]) (idx + 1)
        refine ⟨mkCitationDict idx a ty :: new', ?_, ?_, ?_⟩
        · rw [show annLoopDict acc idx (a :: r) =
              annLoopDict (acc ++ [mkCitationDict idx a ty]) (idx + 1) r by
            simp [annLoopDict, hg, hk]]
          rw [h1]
          simp
        · refine List.Pairwise.cons ?_ h2
          intro n hn
          have := h3 n hn
          rw [citNumber_mkCitationDict]
          push_cast at this
          omega
        · intro n hn
          rcases List.mem_cons.mp hn with h | h
          · rw [h, citNumber_mkCitationDict]; omega
          · have := h3 n h; push_cast at this; omega
      · have hk' : (pyEqStr ty "url_citation" || pyEqStr ty "file_citation") = false := by
          revert hk; cases pyEqStr ty "url_citation" || pyEqStr ty "file_citation" <;> simp
        obtain ⟨new', h1, h2, h3⟩ := ih acc (idx + 1)
        refine ⟨new', ?_, h2, ?_⟩
        · rw [show annLoopDict acc idx (a :: r) = annLoopDict acc (idx + 1) r by
            simp [annLoopDict, hg, hk']]
          exact h1
        · intro n hn
          have := h3 n hn
          push_cast at this
          omega

/-- With all annotations mapping-shaped, the annotation loop completes
without raising and numbers its kept citations by source position. -/
theorem annLoopDict_allDict (anns : List PyVal) : ∀ (acc : List CitD) (idx : Nat),
    (∀ a ∈ anns, ∃ f, a = .vdict f) →
    ∃ new, annLoopDict acc idx anns = .ok (acc ++ new) ∧
      new.map citNumber = specKeptNumbers idx anns := by
  induction anns with
  | nil =>
    intro acc idx _
    exact ⟨[], by simp [annLoopDict], by simp [specKeptNumbers]⟩
  | cons a r ih =>
    intro acc idx hall
    obtain ⟨f, rfl⟩ := hall a (List.mem_cons_self _ _)
    by_cases hk : keepAnn (.vdict f) = true
    · obtain ⟨new', h1, h2⟩ :=
        ih (acc ++ [mkCitationDict idx (.vdict f) ((alookup "type" f).getD .vnone)]) (idx + 1)
          (fun a ha => hall a (List.mem_cons_of_mem _ ha))
      refine ⟨mkCitationDict idx (.vdict f) ((alookup "type" f).getD .vnone) :: new', ?_, ?_⟩
      · rw [show annLoopDict acc idx (.vdict f :: r) =
            annLoopDict (acc ++ [mkCitationDict idx (.vdict f) ((alookup "type" f).getD .vnone)])
              (idx + 1) r by
          simp only [annLoopDict, pyGet]
          rw [show (pyEqStr ((alookup "type" f).getD .vnone) "url_citation" ||
              pyEqStr ((alookup "type" f).getD .vnone) "file_citation") = true from hk]
          simp]
        rw [h1]
        simp
      · simp only [List.map_cons, citNumber_mkCitationDict, h2, specKeptNumbers, hk, if_true]
    · have hk' : keepAnn (.vdict f) = false := by
        revert hk; cases keepAnn (.vdict f) <;> simp
      obtain ⟨new', h1, h2⟩ := ih acc (idx + 1) (fun a ha => hall a (List.mem_cons_of_mem _ ha))
      refine ⟨new', ?_, ?_⟩
      · rw [show annLoopDict acc idx (.vdict f :: r) = annLoopDict acc (idx + 1) r by
          simp only [annLoopDict, pyGet]
          rw [show (pyEqStr ((alookup "type" f).getD .vnone) "url_citation" ||
              pyEqStr ((alookup "type" f).getD .vnone) "file_citation") = false from hk']
          simp]
        exact h1
      · simp only [h2, specKeptNumbers, hk', if_false]
        rw [if_neg]
        simp [hk']

/-- C3: each kept citation is numbered by the 1-based position of its
annotation in the original enumeration, so skipped annotation types leave a
gap; `[url_citation, file_citation, unknown, url_citation]` yields numbers
`[1, 2, 4]`. -/
theorem c3_kept_citation_numbering :
    (∀ anns : List PyVal, (∀ a ∈ anns, ∃ f, a = .vdict f) →
        (get_citations (.ofVal (oneMsgPayload anns))).map citNumber =
          specKeptNumbers 0 anns) ∧
    (get_citations (.ofVal (oneMsgPayload
        [annUrl "https://u1.example", annFile, annOther,
         annUrl "https://u2.example"]))).map citNumber = [1, 2, 4] := by
  constructor
  · intro anns hall
    obtain ⟨new, h1, h2⟩ := annLoopDict_allDict anns [] 0 hall
    rw [get_citations_oneMsgPayload, h1]
    simpa [resCits] using h2
  · rfl

/-- C3 witness: the general numbering law applied to the concrete
four-annotation list. -/
theorem c3_kept_citation_numbering_witness :
    (get_citations (.ofVal (oneMsgPayload
        [annUrl "https://u1.example", annFile, annOther,
         annUrl "https://u2.example"]))).map citNumber =
      specKeptNumbers 0
        [annUrl "https://u1.example", annFile, annOther, annUrl "https://u2.example"] :=
  c3_kept_citation_numbering.1 _ (by
    intro a ha
    fin_cases ha <;> exact ⟨_, rfl⟩)

/-- C5 counterexample: on a payload with two annotated message items,
`get_citations` keeps citations from both items and assigns the number 1
twice — numbers are reused and the second message item is consulted. -/
theorem c5_first_item_only_counterexample :
    (get_citations (.ofVal twoMsgPayload)).map citNumber = [1, 1] ∧
    (get_citations (.ofVal twoMsgPayload)).map (fun c => alookup "url" c) =
      [some (.vstr "https://a.example"), some (.vstr "https://b.example")] :=
  ⟨rfl, rfl⟩

/-- C5 amended: `get_citations` draws annotations from every annotated
`output_text` content item of every message item; within one content item
the numbers are strictly increasing (never reused), but each content item
restarts at 1, as the two-message payload shows. -/
theorem c5_amended_numbering :
    (∀ anns : List PyVal,
        ((get_citations (.ofVal (oneMsgPayload anns))).map citNumber).Pairwise (· < ·)) ∧
    get_citations (.ofVal twoMsgPayload) =
      [[("number", .vint 1), ("type", .vstr "url_citation"), ("title", .vstr "T"),
        ("url", .vstr "https://a.example"), ("file_id", .vnone), ("quote", .vnone),
        ("start_index", .vnone), ("end_index", .vnone)],
       [("number", .vint 1), ("type", .vstr "url_citation"), ("title", .vstr "T"),
        ("url", .vstr "https://b.example"), ("file_id", .vnone), ("quote", .vnone),
        ("start_index", .vnone), ("end_index", .vnone)]] := by
  constructor
  · intro anns
    obtain ⟨new, h1, h2, h3⟩ := annLoopDict_numbers anns [] 0
    rw [get_citations_oneMsgPayload, h1]
    simpa using h2
  · rfl

/-- A value looked up in a field table without `"output_text"` is itself
without `"output_text"`. -/
theorem hasOTSFields_alookup {f : List (String × PyVal)} (h : hasOTSFields f = false)
    {a : String} {x : PyVal} (hx : alookup a f = some x) : hasOTS x = false := by
  induction f with
  | nil => cases hx
  | cons kv r ih =>
    simp only [hasOTSFields, Bool.or_eq_false_iff] at h
    obtain ⟨⟨hk, hv⟩, hr⟩ := h
    by_cases hcase : kv.1 = a
    · simp only [alookup, if_pos hcase] at hx
      cases hx
      exact hv
    · simp only [alookup, if_neg hcase] at hx
      exact ih hr hx

/-- A key of a field table without `"output_text"` is not `"output_text"`. -/
theorem hasOTSFields_key {f : List (String × PyVal)} (h : hasOTSFields f = false)
    {kv : String × PyVal} (hkv : kv ∈ f) : (kv.1 == "output_text") = false := by
  induction f with
  | nil => cases hkv
  | cons kv' r ih =>
    simp only [hasOTSFields, Bool.or_eq_false_iff] at h
    obtain ⟨⟨hk, hv⟩, hr⟩ := h
    rcases List.mem_cons.mp hkv with h' | h'
    · rw [h']; exact hk
    · exact ih hr h'

/-- An element of a list value without `"output_text"` is itself without
`"output_text"`. -/
theorem hasOTSList_mem {xs : List PyVal} (h : hasOTSList xs = false)
    {x : PyVal} (hx : x ∈ xs) : hasOTS x = false := by
  induction xs with
  | nil => cases hx
  | cons y ys ih =>
    simp only [hasOTSList, Bool.or_eq_false_iff] at h
    rcases List.mem_cons.mp hx with h' | h'
    · rw [h']; exact h.1
    · exact ih h.2 h'

/-- A one-character string is never `"output_text"`. -/
theorem singleton_string_noOT (c : Char) : hasOTS (.vstr ⟨[c]⟩) = false := by
  show ((⟨[c]⟩ : String) == "output_text") = false
  rw [beq_eq_false_iff_ne]
  intro h
  have hdata : ([c] : List Char) = "output_text".data := congrArg String.data h
  have hlen : ([c] : List Char).length = ("output_text".data).length := by rw [hdata]
  have h11 : ("output_text".data).length = 11 := rfl
  rw [h11] at hlen
  simp at hlen

/-- A value without `"output_text"` never compares equal to the string
`"output_text"`. -/
theorem pyEqStr_noOT {x : PyVal} (h : hasOTS x = false) :
    pyEqStr x "output_text" = false := by
  cases x <;> first
    | rfl
    | exact h

/-- Attribute access propagates absence of `"output_text"`. -/
theorem pyAttr_noOT {v : PyVal} {a : String} {x : PyVal} (h : hasOTS v = false)
    (hx : pyAttr v a = .ok x) : hasOTS x = false := by
  cases v <;> try (cases hx)
  case vobj f =>
    revert hx
    show (match alookup a f with
      | some y => Except.ok y
      | none => Except.error ()) = .ok x → hasOTS x = false
    cases hal : alookup a f with
    | none => intro hx; cases hx
    | some y =>
      intro hx
      cases hx
      exact hasOTSFields_alookup h hal

/-- `dict.get` propagates absence of `"output_text"`. -/
theorem pyGet_noOT {v : PyVal} {k : String} {x : PyVal} (h : hasOTS v = false)
    (hx : pyGet v k = .ok x) : hasOTS x = false := by
  cases v <;> try (cases hx)
  case vdict f =>
    cases hal : alookup k f with
    | none => rfl
    | some y => exact hasOTSFields_alookup h hal

/-- Subscripting propagates absence of `"output_text"`. -/
theorem pySub_noOT {v : PyVal} {k : String} {x : PyVal} (h : hasOTS v = false)
    (hx : pySub v k = .ok x) : hasOTS x = false := by
  cases v <;> try (cases hx)
  case vdict f =>
    revert hx
    show (match alookup k f with
      | some y => Except.ok y
      | none => Except.error ()) = .ok x → hasOTS x = false
    cases hal : alookup k f with
    | none => intro hx; cases hx
    | some y =>
      intro hx
      cases hx
      exact hasOTSFields_alookup h hal

/-- Iteration propagates absence of `"output_text"` to every element. -/
theorem pyIter_noOT {v : PyVal} {xs : List PyVal} (h : hasOTS v = false)
    (hx : pyIter v = .ok xs) : ∀ x ∈ xs, hasOTS x = false := by
  cases v <;> try (cases hx)
  case vlist =>
    exact fun x hmem => hasOTSList_mem h hmem
  case vstr =>
    intro x hmem
    obtain ⟨c, _, rfl⟩ := List.mem_map.mp hmem
    exact singleton_string_noOT c
  case vdict =>
    intro x hmem
    obtain ⟨kv, hkv, rfl⟩ := List.mem_map.mp hmem
    exact hasOTSFields_key h hkv

/-- Over content items without `"output_text"`, the mapping-path text scan
never returns a text: it either raises or completes empty-handed. -/
theorem scanContentDict_noOT : ∀ cs : List PyVal, (∀ ci ∈ cs, hasOTS ci = false) →
    scanContentDict cs = .error () ∨ scanContentDict cs = .ok none := by
  intro cs
  induction cs with
  | nil => intro _; exact Or.inr rfl
  | cons ci rest ih =>
    intro hall
    cases hg : pyGet ci "type" with
    | error e => left; simp [scanContentDict, hg]
    | ok ty =>
      have hty : pyEqStr ty "output_text" = false :=
        pyEqStr_noOT (pyGet_noOT (hall ci (List.mem_cons_self _ _)) hg)
      simpa [scanContentDict, hg, hty] using
        ih (fun x hx => hall x (List.mem_cons_of_mem _ hx))

/-- Over content items without `"output_text"`, the attribute-path text
scan never returns a text. -/
theorem scanContentAttr_noOT : ∀ cs : List PyVal, (∀ ci ∈ cs, hasOTS ci = false) →
    scanContentAttr cs = .error () ∨ scanContentAttr cs = .ok none := by
  intro cs
  induction cs with
  | nil => intro _; exact Or.inr rfl
  | cons ci rest ih =>
    intro hall
    cases hg : pyAttr ci "type" with
    | error e => left; simp [scanContentAttr, hg]
    | ok ty =>
      have hty : pyEqStr ty "output_text" = false :=
        pyEqStr_noOT (pyAttr_noOT (hall ci (List.mem_cons_self _ _)) hg)
      simpa [scanContentAttr, hg, hty] using
        ih (fun x hx => hall x (List.mem_cons_of_mem _ hx))

/-- Over items without `"output_text"`, the mapping-path message scan never
returns a text. -/
theorem scanMsgDict_noOT : ∀ items : List PyVal, (∀ it ∈ items, hasOTS it = false) →
    scanMsgDict items = .error () ∨ scanMsgDict items = .ok none := by
  intro items
  induction items with
  | nil => intro _; exact Or.inr rfl
  | cons item rest ih =>
    intro hall
    have hitem : hasOTS item = false := hall item (List.mem_cons_self _ _)
    have htail := fun x hx => hall x (List.mem_cons_of_mem _ hx)
    cases hg : pyGet item "type" with
    | error e => left; simp [scanMsgDict, hg]
    | ok ty =>
      by_cases hb : (pyEqStr ty "message" && dictHasKey item "content") = true
      · cases hc : pySub item "content" with
        | error e => left; simp [scanMsgDict, hg, hb, hc]
        | ok c =>
          cases hit : pyIter c with
          | error e => left; simp [scanMsgDict, hg, hb, hc, hit]
          | ok cs =>
            have hcs : ∀ x ∈ cs, hasOTS x = false :=
              pyIter_noOT (pySub_noOT hitem hc) hit
            rcases scanContentDict_noOT cs hcs with hscan | hscan
            · left; simp [scanMsgDict, hg, hb, hc, hit, hscan]
            · simpa [scanMsgDict, hg, hb, hc, hit, hscan] using ih htail
      · have hb' : (pyEqStr ty "message" && dictHasKey item "content") = false := by
          revert hb; cases pyEqStr ty "message" && dictHasKey item "content" <;> simp
        simpa [scanMsgDict, hg, hb'] using ih htail

/-- Over items without `"output_text"`, the attribute-path message scan
never returns a text. -/
theorem scanMsgAttr_noOT : ∀ items : List PyVal, (∀ it ∈ items, hasOTS it = false) →
    scanMsgAttr items = .error () ∨ scanMsgAttr items = .ok none := by
  intro items
  induction items with
  | nil => intro _; exact Or.inr rfl
  | cons item rest ih =>
    intro hall
    have hitem : hasOTS item = false := hall item (List.mem_cons_self _ _)
    have htail := fun x hx => hall x (List.mem_cons_of_mem _ hx)
    cases hg : pyAttr item "type" with
    | error e => left; simp [scanMsgAttr, hg]
    | ok ty =>
      by_cases hb : (pyEqStr ty "message" && pyHasAttr item "content") = true
      · cases hc : pyAttr item "content" with
        | error e => left; simp [scanMsgAttr, hg, hb, hc]
        | ok c =>
          cases hit : pyIter c with
          | error e => left; simp [scanMsgAttr, hg, hb, hc, hit]
          | ok cs =>
            have hcs : ∀ x ∈ cs, hasOTS x = false :=
              pyIter_noOT (pyAttr_noOT hitem hc) hit
            rcases scanContentAttr_noOT cs hcs with hscan | hscan
            · left; simp [scanMsgAttr, hg, hb, hc, hit, hscan]
            · simpa [scanMsgAttr, hg, hb, hc, hit, hscan] using ih htail
      · have hb' : (pyEqStr ty "message" && pyHasAttr item "content") = false := by
          revert hb; cases pyEqStr ty "message" && pyHasAttr item "content" <;> simp
        simpa [scanMsgAttr, hg, hb'] using ih htail

/-- Over content items without `"output_text"`, the mapping-path citation
content loop leaves the accumulator untouched. -/
theorem contentLoopDict_noOT : ∀ (cs : List PyVal) (acc : List CitD),
    (∀ ci ∈ cs, hasOTS ci = false) →
    contentLoopDict acc cs = .ok acc ∨ contentLoopDict acc cs = .error acc := by
  intro cs
  induction cs with
  | nil => intro acc _; exact Or.inl rfl
  | cons ci rest ih =>
    intro acc hall
    cases hg : pyGet ci "type" with
    | error e => right; simp [contentLoopDict, hg]
    | ok ty =>
      have hty : pyEqStr ty "output_text" = false :=
        pyEqStr_noOT (pyGet_noOT (hall ci (List.mem_cons_self _ _)) hg)
      simpa [contentLoopDict, hg, hty] using
        ih acc (fun x hx => hall x (List.mem_cons_of_mem _ hx))

/-- Over content items without `"output_text"`, the attribute-path citation
content loop leaves the accumulator untouched. -/
theorem contentLoopAttr_noOT : ∀ (cs : List PyVal) (acc : List CitD),
    (∀ ci ∈ cs, hasOTS ci = false) →
    contentLoopAttr acc cs = .ok acc ∨ contentLoopAttr acc cs = .error acc := by
  intro cs
  induction cs with
  | nil => intro acc _; exact Or.inl rfl
  | cons ci rest ih =>
    intro acc hall
    cases hg : pyAttr ci "type" with
    | error e => right; simp [contentLoopAttr, hg]
    | ok ty =>
      have hty : pyEqStr ty "output_text" = false :=
        pyEqStr_noOT (pyAttr_noOT (hall ci (List.mem_cons_self _ _)) hg)
      simpa [contentLoopAttr, hg, hty] using
        ih acc (fun x hx => hall x (List.mem_cons_of_mem _ hx))

/-- Over items without `"output_text"`, the mapping-path citation item loop
leaves the accumulator untouched. -/
theorem itemLoopDict_noOT : ∀ (items : List PyVal) (acc : List CitD),
    (∀ it ∈ items, hasOTS it = false) →
    itemLoopDict acc items = .ok acc ∨ itemLoopDict acc items = .error acc := by
  intro items
  induction items with
  | nil => intro acc _; exact Or.inl rfl
  | cons item rest ih =>
    intro acc hall
    have hitem : hasOTS item = false := hall item (List.mem_cons_self _ _)
    have htail := fun x hx => hall x (List.mem_cons_of_mem _ hx)
    cases hg : pyGet item "type" with
    | error e => right; simp [itemLoopDict, hg]
    | ok ty =>
      by_cases hb : (pyEqStr ty "message" && dictHasKey item "content") = true
      · cases hc : pySub item "content" with
        | error e => right; simp [itemLoopDict, hg, hb, hc]
        | ok c =>
          cases hit : pyIter c with
          | error e => right; simp [itemLoopDict, hg, hb, hc, hit]
          | ok cs =>
            have hcs : ∀ x ∈ cs, hasOTS x = false :=
              pyIter_noOT (pySub_noOT hitem hc) hit
            rcases contentLoopDict_noOT cs acc hcs with hscan | hscan
            · simpa [itemLoopDict, hg, hb, hc, hit, hscan] using ih acc htail
            · right; simp [itemLoopDict, hg, hb, hc, hit, hscan]
      · have hb' : (pyEqStr ty "message" && dictHasKey item "content") = false := by
          revert hb; cases pyEqStr ty "message" && dictHasKey item "content" <;> simp
        simpa [itemLoopDict, hg, hb'] using ih acc htail

/-- Over items without `"output_text"`, the attribute-path citation item
loop leaves the accumulator untouched. -/
theorem itemLoopAttr_noOT : ∀ (items : List PyVal) (acc : List CitD),
    (∀ it ∈ items, hasOTS it = false) →
    itemLoopAttr acc items = .ok acc ∨ itemLoopAttr acc items = .error acc := by
  intro items
  induction items with
  | nil => intro acc _; exact Or.inl rfl
  | cons item rest ih =>
    intro acc hall
    have hitem : hasOTS item = false := hall item (List.mem_cons_self _ _)
    have htail := fun x hx => hall x (List.mem_cons_of_mem _ hx)
    cases hg : pyAttr item "type" with
    | error e => right; simp [itemLoopAttr, hg]
    | ok ty =>
      by_cases hb : (pyEqStr ty "message" && pyHasAttr item "content") = true
      · cases hc : pyAttr item "content" with
        | error e => right; simp [itemLoopAttr, hg, hb, hc]
        | ok c =>
          cases hit : pyIter c with
          | error e => right; simp [itemLoopAttr, hg, hb, hc, hit]
          | ok cs =>
            have hcs : ∀ x ∈ cs, hasOTS x = false :=
              pyIter_noOT (pyAttr_noOT hitem hc) hit
            rcases contentLoopAttr_noOT cs acc hcs with hscan | hscan
            · simpa [itemLoopAttr, hg, hb, hc, hit, hscan] using ih acc htail
            · right; simp [itemLoopAttr, hg, hb, hc, hit, hscan]
      · have hb' : (pyEqStr ty "message" && pyHasAttr item "content") = false := by
          revert hb; cases pyEqStr ty "message" && pyHasAttr item "content" <;> simp
        simpa [itemLoopAttr, hg, hb'] using ih acc htail

/-- A payload value without `"output_text"` yields no text: every traversal
path either raises (handled to `None`) or completes without a match. -/
theorem get_output_text_val_noOT {v : PyVal} (h : hasOTS v = false) :
    get_output_text_val v = .vnone := by
  by_cases hh : pyHasAttr v "output" = true
  · cases v <;> simp [pyHasAttr] at hh
    rename_i f
    cases hal : alookup "output" f with
    | none => rw [hal] at hh; simp at hh
    | some out =>
      have hout : hasOTS out = false := hasOTSFields_alookup h hal
      cases hit : pyIter out with
      | error e => simp [get_output_text_val, pyHasAttr, pyAttr, hal, hit]
      | ok items =>
        have hitems := pyIter_noOT hout hit
        rcases scanMsgAttr_noOT items hitems with hs | hs <;>
          simp [get_output_text_val, pyHasAttr, pyAttr, hal, hit, hs]
  · have hh' : pyHasAttr v "output" = false := by
      revert hh; cases pyHasAttr v "output" <;> simp
    cases v with
    | vlist items =>
      have hitems : ∀ x ∈ items, hasOTS x = false := fun x hx => hasOTSList_mem h hx
      rcases scanMsgDict_noOT items hitems with hs | hs <;>
        simp [get_output_text_val, hh', hs]
    | vnone => simp [get_output_text_val, hh']
    | vbool b => simp [get_output_text_val, hh']
    | vint n => simp [get_output_text_val, hh']
    | vstr s => simp [get_output_text_val, hh']
    | vdict f => simp [get_output_text_val, hh']
    | vobj f => simp [get_output_text_val, hh']

/-- A payload value without `"output_text"` yields no citations: nothing is
ever appended before any exception. -/
theorem get_citations_val_noOT {v : PyVal} (h : hasOTS v = false) :
    get_citations_val v = [] := by
  by_cases hh : pyHasAttr v "output" = true
  · cases v <;> simp [pyHasAttr] at hh
    rename_i f
    cases hal : alookup "output" f with
    | none => rw [hal] at hh; simp at hh
    | some out =>
      have hout : hasOTS out = false := hasOTSFields_alookup h hal
      cases hit : pyIter out with
      | error e => simp [get_citations_val, pyHasAttr, pyAttr, hal, hit]
      | ok items =>
        have hitems := pyIter_noOT hout hit
        rcases itemLoopAttr_noOT items [] hitems with hs | hs <;>
          simp [get_citations_val, pyHasAttr, pyAttr, hal, hit, hs]
  · have hh' : pyHasAttr v "output" = false := by
      revert hh; cases pyHasAttr v "output" <;> simp
    cases v with
    | vlist items =>
      have hitems : ∀ x ∈ items, hasOTS x = false := fun x hx => hasOTSList_mem h hx
      rcases itemLoopDict_noOT items [] hitems with hs | hs <;>
        simp [get_citations_val, hh', hs]
    | vnone => simp [get_citations_val, hh']
    | vbool b => simp [get_citations_val, hh']
    | vint n => simp [get_citations_val, hh']
    | vstr s => simp [get_citations_val, hh']
    | vdict f => simp [get_citations_val, hh']
    | vobj f => simp [get_citations_val, hh']

/-- C6 counterexample: on an anomalous payload whose `output_text` content
item lacks the non-optional `text` field but carries a well-formed
annotation, `get_output_text` is absent yet `get_citations` is non-empty —
the claimed conjunction (absent text AND empty citations) fails. -/
theorem c6_anomalous_conjunction_counterexample :
    get_output_text (.ofVal exMissingText) = .vnone ∧
    get_citations (.ofVal exMissingText) =
      [[("number", .vint 1), ("type", .vstr "url_citation"), ("title", .vstr "No title"),
        ("url", .vstr "https://e.example"), ("file_id", .vnone), ("quote", .vnone),
        ("start_index", .vnone), ("end_index", .vnone)]] ∧
    get_citations (.ofVal exMissingText) ≠ [] := by
  refine ⟨rfl, rfl, ?_⟩
  intro hcontra
  rw [show get_citations (.ofVal exMissingText) =
      [[("number", .vint 1), ("type", .vstr "url_citation"), ("title", .vstr "No title"),
        ("url", .vstr "https://e.example"), ("file_id", .vnone), ("quote", .vnone),
        ("start_index", .vnone), ("end_index", .vnone)]] from rfl] at hcontra
  cases hcontra

/-- C6 amended: neither operation ever raises (both are total, the modelled
`try/except` mapping every raised exception to the fallback result), and on
every payload with no `output_text` content item anywhere — including
non-decodable JSON strings and wrong-type payloads — `get_output_text`
returns `None` and `get_citations` returns the empty list.  An anomaly
inside an annotated `output_text` item, however, can leave the text absent
while citations are still extracted. -/
theorem c6_amended_graceful_degradation :
    ∀ p : Payload, hasOTSPayload p = false →
      get_output_text p = PyVal.vnone ∧ get_citations p = [] := by
  intro p hp
  cases p with
  | ofStr s d =>
    cases d with
    | none => exact ⟨rfl, rfl⟩
    | some v => exact ⟨get_output_text_val_noOT hp, get_citations_val_noOT hp⟩
  | ofVal v => exact ⟨get_output_text_val_noOT hp, get_citations_val_noOT hp⟩

/-- C6 amended, witness: a payload whose only content item is not an
`output_text` item yields absent text and no citations. -/
theorem c6_amended_graceful_degradation_witness :
    get_output_text (.ofVal (.vlist [.vdict [("type", .vstr "message"),
        ("content", .vlist [.vdict [("type", .vstr "reasoning"), ("text", .vstr "x")]])]])) =
      PyVal.vnone ∧
    get_citations (.ofVal (.vlist [.vdict [("type", .vstr "message"),
        ("content", .vlist [.vdict [("type", .vstr "reasoning"), ("text", .vstr "x")]])]])) =
      [] :=
  c6_amended_graceful_degradation _ rfl

/-- Strengthen a pairwise relation using membership information. -/
theorem pairwiseImpOfMem {α : Type} {R S : α → α → Prop} :
    ∀ {l : List α}, (∀ a ∈ l, ∀ b ∈ l, R a b → S a b) → l.Pairwise R → l.Pairwise S := by
  intro l
  induction l with
  | nil => intro _ _; exact List.Pairwise.nil
  | cons x xs ih =>
    intro hm hp
    rcases List.pairwise_cons.mp hp with ⟨hx, hxs⟩
    refine List.Pairwise.cons ?_ (ih ?_ hxs)
    · intro b hb
      exact hm x (List.mem_cons_self _ _) b (List.mem_cons_of_mem _ hb) (hx b hb)
    · intro a ha b hb hrel
      exact hm a (List.mem_cons_of_mem _ ha) b (List.mem_cons_of_mem _ hb) hrel

/-- A renderable citation always produces a link for any cited slice. -/
theorem linkFor_isSome {c : Citation} (hr : Renderable c) (cited : List Char) :
    ∃ l, linkFor c cited = some l := by
  rcases hr with ⟨hty, u, hu, hne⟩ | ⟨hty, fid, hf, hne⟩
  · have htr : optTruthy c.url = true := by
      rw [hu]; simp [optTruthy, List.isEmpty_iff, hne]
    exact ⟨_, by simp only [linkFor]; rw [if_pos ⟨hty, htr⟩]⟩
  · have hfalse : ¬(c.type = "url_citation" ∧ optTruthy c.url) := by
      intro hcontra
      rw [hty] at hcontra
      exact absurd hcontra.1 (by decide)
    have htr : optTruthy c.file_id = true := by
      rw [hf]; simp [optTruthy, List.isEmpty_iff, hne]
    exact ⟨_, by simp only [linkFor]; rw [if_neg hfalse, if_pos ⟨hty, htr⟩]⟩

/-- Splicing a valid renderable citation into a buffer of the form
`t.take e ++ T` rewrites exactly the span `[s, e)` of `t` and preserves the
prefix and the tail. -/
theorem applyCitation_grown (t T : List Char) (c : Citation) (s e : Nat)
    (hs : c.start_index = some s) (he : c.end_index = some e)
    (hse : s < e) (het : e ≤ t.length) (hr : Renderable c) :
    applyCitation (t.take e ++ T) c =
      t.take s ++
        ((linkFor c ((t.drop s).take (e - s))).getD ((t.drop s).take (e - s))) ++ T := by
  have hlen : (t.take e).length = e := by
    rw [List.length_take]; omega
  have hcond : s < (t.take e ++ T).length ∧ e ≤ (t.take e ++ T).length := by
    rw [List.length_append, hlen]
    omega
  have hdrop_s : (t.take e ++ T).drop s = (t.take e).drop s ++ T := by
    rw [List.drop_append_eq_append_drop, hlen, show s - e = 0 from by omega, List.drop_zero]
  have hlds : ((t.take e).drop s).length = e - s := by
    rw [List.length_drop, hlen]
  have hcited : ((t.take e ++ T).drop s).take (e - s) = (t.drop s).take (e - s) := by
    rw [hdrop_s, List.take_append_eq_append_take, hlds,
      show e - s - (e - s) = 0 from by omega, List.take_zero, List.append_nil,
      List.take_of_length_le (le_of_eq hlds), List.drop_take e s t]
  have htake_s : (t.take e ++ T).take s = t.take s := by
    rw [List.take_append_eq_append_take, hlen, show s - e = 0 from by omega,
      List.take_zero, List.append_nil, List.take_take, Nat.min_eq_left (le_of_lt hse)]
  have hdrop_e : (t.take e ++ T).drop e = T := by
    rw [List.drop_append_eq_append_drop, hlen, Nat.sub_self, List.drop_zero,
      List.drop_of_length_le (le_of_eq hlen), List.nil_append]
  obtain ⟨lnk, hlnk⟩ := linkFor_isSome hr ((t.drop s).take (e - s))
  simp only [applyCitation, hs, he]
  rw [if_pos hcond, hcited, hlnk, htake_s, hdrop_e]
  simp

/-- Folding the splicing step from the rightmost citation leftwards over an
ascending chain of valid, renderable, non-overlapping citations produces the
left-to-right segment decomposition: prefix up to each span, wrapped span,
untouched text between spans. -/
theorem foldr_applyCitation_segments (t : List Char) :
    ∀ (cs : List Citation) (pos : Nat),
      (∀ c ∈ cs, ValidSpan t c) → (∀ c ∈ cs, Renderable c) →
      cs.Pairwise (fun a b => endN a ≤ startN b) →
      (∀ c ∈ cs, pos ≤ startN c) → pos ≤ t.length →
      cs.foldr (fun c acc => applyCitation acc c) t = t.take pos ++ segmentsFrom t pos cs := by
  intro cs
  induction cs with
  | nil =>
    intro pos _ _ _ _ hpt
    simp only [List.foldr_nil, segmentsFrom]
    exact (List.take_append_drop pos t).symm
  | cons c rest ih =>
    intro pos hv hr hchain hpos hpt
    obtain ⟨s, e, hs, he, hse, het⟩ := hv c (List.mem_cons_self _ _)
    have hsn : startN c = s := by simp [startN, hs]
    have hen : endN c = e := by simp [endN, he]
    rcases List.pairwise_cons.mp hchain with ⟨hhead, htail⟩
    have hrest : rest.foldr (fun c acc => applyCitation acc c) t =
        t.take e ++ segmentsFrom t e rest := by
      refine ih e (fun x hx => hv x (List.mem_cons_of_mem _ hx))
        (fun x hx => hr x (List.mem_cons_of_mem _ hx)) htail ?_ het
      intro x hx
      exact hen ▸ hhead x hx
    rw [List.foldr_cons, hrest,
      applyCitation_grown t (segmentsFrom t e rest) c s e hs he hse het
        (hr c (List.mem_cons_self _ _))]
    have hps : pos ≤ s := hsn ▸ hpos c (List.mem_cons_self _ _)
    have hsplit : t.take pos ++ (t.drop pos).take (s - pos) = t.take s := by
      rw [← List.take_add]
      congr 1
      omega
    simp only [segmentsFrom, hsn, hen, ← hsplit, List.append_assoc]

/-- C4: on citations with valid, pairwise non-overlapping spans, each
carrying its rendering field, `format_text_with_citations` equals the
left-to-right segment decomposition over the citations in ascending start
order: every span's substring is replaced by its wrapper and every character
outside the spans is preserved in place. -/
theorem c4_nonoverlapping_spans_spliced (t : List Char) (cs : List Citation)
    (hv : ∀ c ∈ cs, ValidSpan t c) (hr : ∀ c ∈ cs, Renderable c)
    (hd : cs.Pairwise SpanDisj) :
    format_text_with_citations t cs = segmentsFrom t 0 (specSortAsc cs) := by
  have hvlt : ∀ c ∈ cs, startN c < endN c ∧ endN c ≤ t.length := by
    intro c hc
    obtain ⟨s, e, hs, he, hse, het⟩ := hv c hc
    constructor
    · simp [startN, endN, hs, he, hse]
    · simp [endN, he, het]
  cases cs with
  | nil => rfl
  | cons c0 rest0 =>
    haveI : IsTotal Citation (fun a b => startN b ≤ startN a) :=
      ⟨fun a b => Nat.le_total (startN b) (startN a)⟩
    haveI : IsTrans Citation (fun a b => startN b ≤ startN a) :=
      ⟨fun a b c hab hbc => le_trans hbc hab⟩
    haveI : IsTotal Citation (fun a b => startN a ≤ startN b) :=
      ⟨fun a b => Nat.le_total (startN a) (startN b)⟩
    haveI : IsTrans Citation (fun a b => startN a ≤ startN b) :=
      ⟨fun a b c hab hbc => le_trans hab hbc⟩
    haveI : IsAntisymm Citation (fun a b => startN a < startN b) :=
      ⟨fun a b hab hba => absurd (lt_trans hab hba) (lt_irrefl _)⟩
    have hfil : (c0 :: rest0).filter (fun c => c.start_index.isSome && c.end_index.isSome) =
        c0 :: rest0 := by
      rw [List.filter_eq_self]
      intro a ha
      obtain ⟨s, e, hs, he, _, _⟩ := hv a ha
      simp [hs, he]
    have hperm : List.Perm (sortDescByStart (c0 :: rest0)) (c0 :: rest0) :=
      List.perm_insertionSort _ _
    have hsorted : List.Sorted (fun a b => startN b ≤ startN a)
        (sortDescByStart (c0 :: rest0)) := List.sorted_insertionSort _ _
    have hvasc : ∀ c ∈ (sortDescByStart (c0 :: rest0)).reverse, ValidSpan t c :=
      fun c hc => hv c (hperm.mem_iff.mp (List.mem_reverse.mp hc))
    have hrasc : ∀ c ∈ (sortDescByStart (c0 :: rest0)).reverse, Renderable c :=
      fun c hc => hr c (hperm.mem_iff.mp (List.mem_reverse.mp hc))
    have hvltasc : ∀ c ∈ (sortDescByStart (c0 :: rest0)).reverse,
        startN c < endN c ∧ endN c ≤ t.length :=
      fun c hc => hvlt c (hperm.mem_iff.mp (List.mem_reverse.mp hc))
    have hdd : (sortDescByStart (c0 :: rest0)).Pairwise SpanDisj :=
      (hperm.pairwise_iff (fun hab => Or.symm hab)).mpr hd
    have hascle : (sortDescByStart (c0 :: rest0)).reverse.Pairwise
        (fun a b => startN a ≤ startN b) := by
      rw [List.pairwise_reverse]
      exact hsorted
    have hascdisj : (sortDescByStart (c0 :: rest0)).reverse.Pairwise SpanDisj := by
      rw [List.pairwise_reverse]
      exact pairwiseImpOfMem (fun a _ b _ h => Or.symm h) hdd
    have hkey : (sortDescByStart (c0 :: rest0)).reverse.Pairwise
        (fun a b => endN a ≤ startN b) := by
      refine pairwiseImpOfMem ?_ (hascle.and hascdisj)
      intro a ha b hb hab
      have hda := hvltasc a ha
      have hdb := hvltasc b hb
      rcases hab.2 with h | h
      · exact h
      · omega
    have hfold : (sortDescByStart (c0 :: rest0)).foldl applyCitation t =
        (sortDescByStart (c0 :: rest0)).reverse.foldr (fun c acc => applyCitation acc c) t := by
      conv_lhs => rw [← List.reverse_reverse (sortDescByStart (c0 :: rest0))]
      rw [List.foldl_reverse]
    have hmain := foldr_applyCitation_segments t (sortDescByStart (c0 :: rest0)).reverse 0
      hvasc hrasc hkey (fun c _ => Nat.zero_le _) (Nat.zero_le _)
    have hdist : (c0 :: rest0).Pairwise (fun a b => startN a ≠ startN b) := by
      refine pairwiseImpOfMem ?_ hd
      intro a ha b hb hdisj heq
      have hda := hvlt a ha
      have hdb := hvlt b hb
      rcases hdisj with h | h <;> omega
    have hdistasc : (sortDescByStart (c0 :: rest0)).reverse.Pairwise
        (fun a b => startN a ≠ startN b) := by
      rw [List.pairwise_reverse]
      exact pairwiseImpOfMem (fun a _ b _ h => Ne.symm h)
        ((hperm.pairwise_iff (fun hab => Ne.symm hab)).mpr hdist)
    have hstrict1 : List.Sorted (fun a b => startN a < startN b)
        (sortDescByStart (c0 :: rest0)).reverse :=
      pairwiseImpOfMem (fun a _ b _ h => lt_of_le_of_ne h.1 h.2) (hascle.and hdistasc)
    have hpermspec : List.Perm (specSortAsc (c0 :: rest0)) (c0 :: rest0) :=
      List.perm_insertionSort _ _
    have hsortedspec : List.Sorted (fun a b => startN a ≤ startN b)
        (specSortAsc (c0 :: rest0)) := List.sorted_insertionSort _ _
    have hdistspec : (specSortAsc (c0 :: rest0)).Pairwise (fun a b => startN a ≠ startN b) :=
      (hpermspec.pairwise_iff (fun hab => Ne.symm hab)).mpr hdist
    have hstrict2 : List.Sorted (fun a b => startN a < startN b) (specSortAsc (c0 :: rest0)) :=
      pairwiseImpOfMem (fun a _ b _ h => lt_of_le_of_ne h.1 h.2) (hsortedspec.and hdistspec)
    have hpermasc : List.Perm (sortDescByStart (c0 :: rest0)).reverse
        (specSortAsc (c0 :: rest0)) :=
      ((List.reverse_perm (sortDescByStart (c0 :: rest0))).trans hperm).trans hpermspec.symm
    have hasceq : (sortDescByStart (c0 :: rest0)).reverse = specSortAsc (c0 :: rest0) :=
      List.eq_of_perm_of_sorted hpermasc hstrict1 hstrict2
    show format_text_with_citations t (c0 :: rest0) = _
    rw [format_text_with_citations]
    rw [if_neg (by simp)]
    rw [hfil, hfold, hmain, hasceq]
    simp

set_option maxRecDepth 8000 in
/-- C4 witness: the general non-overlap law at the two concrete examples —
one citation `[0, 5)` wraps exactly `"Paris"`, and citations `[0, 5)` and
`[20, 25)` are both spliced in one call. -/
theorem c4_nonoverlapping_spans_spliced_witness :
    format_text_with_citations (chars "Paris is the capital of France.")
        [{ type := "url_citation", url := some (chars "https://x.test"),
           start_index := some 0, end_index := some 5 }] =
      htmlLinkA (chars "https://x.test") (chars "Paris") ++
        chars " is the capital of France." ∧
    format_text_with_citations (chars "Paris is the capital of France.")
        [{ type := "url_citation", url := some (chars "https://u1.example"),
           start_index := some 0, end_index := some 5 },
         { type := "url_citation", url := some (chars "https://u2.example"),
           start_index := some 20, end_index := some 25 }] =
      htmlLinkA (chars "https://u1.example") (chars "Paris") ++ chars " is the capital" ++
        htmlLinkA (chars "https://u2.example") (chars " of F") ++ chars "rance." := by
  constructor
  · have h := c4_nonoverlapping_spans_spliced (chars "Paris is the capital of France.")
      [{ type := "url_citation", url := some (chars "https://x.test"),
         start_index := some 0, end_index := some 5 }]
      (by intro c hc; fin_cases hc; exact ⟨0, 5, rfl, rfl, by omega, by decide⟩)
      (by intro c hc; fin_cases hc
          exact Or.inl ⟨rfl, chars "https://x.test", rfl, by decide⟩)
      (by simp)
    rw [h]
    decide
  · have h := c4_nonoverlapping_spans_spliced (chars "Paris is the capital of France.")
      [{ type := "url_citation", url := some (chars "https://u1.example"),
         start_index := some 0, end_index := some 5 },
       { type := "url_citation", url := some (chars "https://u2.example"),
         start_index := some 20, end_index := some 25 }]
      (by intro c hc; fin_cases hc
          · exact ⟨0, 5, rfl, rfl, by omega, by decide⟩
          · exact ⟨20, 25, rfl, rfl, by omega, by decide⟩)
      (by intro c hc; fin_cases hc
          · exact Or.inl ⟨rfl, chars "https://u1.example", rfl, by decide⟩
          · exact Or.inl ⟨rfl, chars "https://u2.example", rfl, by decide⟩)
      (by refine List.Pairwise.cons ?_ (List.pairwise_singleton _ _)
          intro b hb
          rw [List.mem_singleton.mp hb]
          left
          decide)
    rw [h]
    decide
